import Mathlib

/-!
Verification development for the trado market-data capture service.

The embedding below translates the three source modules into Lean:

* `src/src/db/index.ts` — the batching storage sink (`getTopicId`,
  `saveToDatabase`, `flushBatch`, topic cache, pending batch).
* `src/unnamed/part_000` — the MQTT connection manager (reconnect
  backoff computation).
* `src/unnamed/part_001` — the message decoder/router (`processMessage`)
  and the subscription manager (`subscribeToAllIndices`,
  `initializeFirstMessageTracking`, `subscribeToAtmOptions`,
  `getOptionToken`).

Prices and strikes are modelled as rationals; JavaScript `Map`s are
modelled as association lists where an update prepends its entry (lookup
returns the most recent binding); JavaScript `Set`s are lists with
membership-guarded insertion.  External collaborators that are not part
of the repository (the `utils` strike helpers, the configuration object,
the token-resolution HTTP endpoint, the PostgreSQL store) enter the
model as explicit parameters or as explicit state, as documented at each
definition.
-/

/-- JavaScript `Map.get`: first (most recent) binding for the key. -/
def alookup {α : Type} (m : List (String × α)) (k : String) : Option α :=
  (m.find? (fun p => p.1 == k)).map (fun p => p.2)

/-- JavaScript `Map.set`: prepend the binding; `alookup` sees the newest. -/
def aset {α : Type} (m : List (String × α)) (k : String) (v : α) :
    List (String × α) :=
  (k, v) :: m

/-- JavaScript `Set.add`: insert only when not already a member. -/
def sadd (s : List String) (x : String) : List String :=
  if s.contains x then s else x :: s

theorem alookup_aset_self {α : Type} (m : List (String × α)) (k : String)
    (v : α) : alookup (aset m k v) k = some v := by
  simp [alookup, aset, List.find?]

theorem alookup_aset_ne {α : Type} (m : List (String × α)) (k k' : String)
    (v : α) (h : k ≠ k') : alookup (aset m k v) k' = alookup m k' := by
  have hb : (k == k') = false := by
    simp [h]
  simp only [alookup, aset, List.find?, hb]

/-! ## Storage sink (`src/src/db/index.ts`) -/

/-- The `BatchItem` interface (db/index.ts): one buffered market-data point. -/
structure BatchItem where
  topic : String
  ltp : ℚ
  indexName : Option String
  type : Option String
  strike : Option ℚ
deriving Repr, DecidableEq

/-- One row of the collaborator-owned `topics` table (spec §6: keyed by a
generated identifier, with columns for the subscription identifier
string, index name, instrument type and strike). -/
structure TopicRow where
  topic_id : ℕ
  topic_name : String
  index_name : Option String
  type : Option String
  strike : Option ℚ
deriving Repr, DecidableEq

/-- One row of the `ltp_data` observations table (topic id and price; the
server-assigned timestamp is irrelevant to the claims and omitted). -/
structure LtpRow where
  topic_id : ℕ
  ltp : ℚ
deriving Repr, DecidableEq

/-- The mutable module-level state of db/index.ts plus the external
store it talks to: `dataBatch`, `batchTimer` (whether a timer is
currently scheduled), `topicCache`, and the two tables.  `nextTopicId`
models the store's generated-identifier sequence. -/
structure DbState where
  dataBatch : List BatchItem
  batchTimer : Bool
  topicCache : List (String × ℕ)
  topics : List TopicRow
  ltpData : List LtpRow
  nextTopicId : ℕ
deriving Repr, DecidableEq

/-- A database state with empty batch, empty cache and empty tables. -/
def DbState.empty : DbState :=
  { dataBatch := [], batchTimer := false, topicCache := [], topics := [],
    ltpData := [], nextTopicId := 0 }

/-- Result of one sequential `getTopicId` call: the returned id, the
state afterwards, and how many `SELECT` / `INSERT` statements the call
ran against the store. -/
structure GtiResult where
  id : ℕ
  state : DbState
  selects : ℕ
  inserts : ℕ
deriving Repr, DecidableEq

/-- The `getTopicId` function (db/index.ts lines 100–138), sequential semantics:
check the in-memory cache; on miss `SELECT` from `topics`; on store miss
`INSERT` a new row (the store assigns the next generated id) and cache
it.  The `INSERT` carries the metadata passed by the caller. -/
def getTopicId (s : DbState) (topicName : String) (indexName : Option String)
    (ty : Option String) (strike : Option ℚ) : GtiResult :=
  match alookup s.topicCache topicName with
  | some i => { id := i, state := s, selects := 0, inserts := 0 }
  | none =>
    match s.topics.find? (fun r => r.topic_name == topicName) with
    | some row =>
      { id := row.topic_id,
        state := { s with topicCache := aset s.topicCache topicName row.topic_id },
        selects := 1, inserts := 0 }
    | none =>
      let newId := s.nextTopicId
      { id := newId,
        state := { s with
          topics := s.topics ++ [⟨newId, topicName, indexName, ty, strike⟩],
          nextTopicId := newId + 1,
          topicCache := aset s.topicCache topicName newId },
        selects := 1, inserts := 1 }

/-- Resolve topic ids for every item of a snapshot, in order (the source
issues these via `Promise.all`; the sequential model runs them left to
right).  Note the source's `getTopicId` talks to the pool directly, i.e.
outside the flush transaction, so its effects survive a rollback. -/
def resolveTopicIds : List BatchItem → DbState → List ℕ × DbState
  | [], s => ([], s)
  | it :: rest, s =>
    let r := getTopicId s it.topic it.indexName it.type it.strike
    let rest' := resolveTopicIds rest r.state
    (r.id :: rest'.1, rest'.2)

/-- Result of one `flushBatch` call: the state afterwards, the snapshot
of the pending buffer that this call took (empty when the call was a
no-op), and whether the transaction committed. -/
structure FlushResult where
  state : DbState
  snapshot : List BatchItem
  ok : Bool
deriving Repr, DecidableEq

/-- The `flushBatch` function (db/index.ts lines 204–257): clear the timer; return at
once on an empty batch; otherwise swap the pending buffer for an empty
one, resolve topic ids, and bulk-insert all observations inside one
transaction.  `wFail` says whether the durable bulk write fails; on
failure the transaction is rolled back, so no observation row is
written, and the error is reported upward (`ok := false`).  The swapped
out snapshot is never put back. -/
def flushBatch (wFail : Bool) (s0 : DbState) : FlushResult :=
  let s := { s0 with batchTimer := false }
  if s.dataBatch = [] then { state := s, snapshot := [], ok := true }
  else
    let batchToProcess := s.dataBatch
    let s1 := { s with dataBatch := [] }
    let res := resolveTopicIds batchToProcess s1
    if wFail then
      { state := res.2, snapshot := batchToProcess, ok := false }
    else
      let rows := (batchToProcess.zip res.1).map (fun p => LtpRow.mk p.2 p.1.ltp)
      { state := { res.2 with ltpData := res.2.ltpData ++ rows },
        snapshot := batchToProcess, ok := true }

/-- The `saveToDatabase` function (db/index.ts lines 159–186): push the item onto the
pending batch, arm the timer if it is not armed, and flush immediately
when the batch length reaches `batchSize`.  Returns the new state and
the list of snapshots of the `flushBatch` invocations this call made
(so `[]` when no flush was triggered). -/
def saveToDatabase (batchSize : ℕ) (wFail : Bool) (topic : String) (ltp : ℚ)
    (indexName : Option String) (ty : Option String) (strike : Option ℚ)
    (s : DbState) : DbState × List (List BatchItem) :=
  let s1 := { s with dataBatch := s.dataBatch ++ [⟨topic, ltp, indexName, ty, strike⟩] }
  let s2 := if s1.batchTimer then s1 else { s1 with batchTimer := true }
  if batchSize ≤ s2.dataBatch.length then
    let r := flushBatch wFail s2
    (r.state, [r.snapshot])
  else
    (s2, [])

/-- Calling `saveToDatabase` with the fields of a `BatchItem`. -/
def saveItem (batchSize : ℕ) (wFail : Bool) (it : BatchItem) (s : DbState) :
    DbState × List (List BatchItem) :=
  saveToDatabase batchSize wFail it.topic it.ltp it.indexName it.type it.strike s

/-- A sequence of `saveToDatabase` calls, collecting flush snapshots. -/
def runSaves (batchSize : ℕ) (wFail : Bool) :
    List BatchItem → DbState → DbState × List (List BatchItem)
  | [], s => (s, [])
  | it :: rest, s =>
    let r1 := saveItem batchSize wFail it s
    let r2 := runSaves batchSize wFail rest r1.1
    (r2.1, r1.2 ++ r2.2)

/-! ## Connection manager (`src/unnamed/part_000`) -/

/-- The `MAX_RECONNECT_DELAY` constant (part_000 line 7). -/
def MAX_RECONNECT_DELAY : ℚ := 5000

/-- The connection-manager state the backoff logic touches: the failed
attempt counter and the client's current `reconnectPeriod` option. -/
structure ConnState where
  reconnectCount : ℕ
  reconnectPeriod : ℚ
deriving Repr, DecidableEq

/-- State right after `createClient` (part_000 lines 18–43):
`reconnectCount` is 0 and `options.reconnectPeriod` is 100, the period
that governs the first automatic reconnect attempt. -/
def initialConnState : ConnState :=
  { reconnectCount := 0, reconnectPeriod := 100 }

/-- The `reconnect` event handler (part_000 lines 52–56): increment the
counter and set `reconnectPeriod` to
`min(100 * 1.5 ^ reconnectCount, MAX_RECONNECT_DELAY)`. -/
def onReconnectEvent (s : ConnState) : ConnState :=
  let c := s.reconnectCount + 1
  { reconnectCount := c,
    reconnectPeriod := min (100 * (3 / 2 : ℚ) ^ c) MAX_RECONNECT_DELAY }

/-- Connection state after `n` consecutive `reconnect` events. -/
def connAfter : ℕ → ConnState
  | 0 => initialConnState
  | n + 1 => onReconnectEvent (connAfter n)

/-- The delay computed by the handler of the `n`-th reconnect event
(meaningful for `n ≥ 1`): the `reconnectPeriod` in force afterwards. -/
def computedDelay (n : ℕ) : ℚ :=
  (connAfter n).reconnectPeriod

/-! ## Subscription manager and decoder/router (`src/unnamed/part_001`) -/

/-- Splitting a string at a character, JavaScript `String.split` style:
`splitOnChar sep s` never returns an empty list. -/
def splitCharAux (sep : Char) : List Char → List Char → List String
  | [], acc => [String.mk acc.reverse]
  | c :: cs, acc =>
    if c = sep then String.mk acc.reverse :: splitCharAux sep cs []
    else splitCharAux sep cs (c :: acc)

/-- JavaScript `topic.split(sep)`. -/
def splitOnChar (sep : Char) (s : String) : List String :=
  splitCharAux sep s.toList []

/-- JavaScript `s.startsWith(pre)`. -/
def strBegins (pre s : String) : Bool :=
  pre.toList.isPrefixOf s.toList

/-- JavaScript `topic.split('/')[1]`, defaulting to `""` (the claims only use it
on topics that do contain a slash). -/
def indexNameOf (topic : String) : String :=
  (splitOnChar (Char.ofNat 47) topic).getD 1 ""

/-- The configuration and external pure helpers the decoder and the
subscription manager import from `../config` and `../utils`, which are
not part of the repository snapshot; they enter the model as explicit
parameters.  `channelRoot` is `config.app.indexPrefix` (the subscription
manager hardcodes `"index"` for it), `indices` is `INDICES`,
`strikeRange` is `STRIKE_RANGE`, `batchSize` is `config.app.batchSize`,
and `getAtmStrike` / `getStrikeDiff` are the Reference-Price Tracker
functions of `../utils` (spec §2: nearest valid strike for an index and
price, and the index-specific spacing constant). -/
structure AppCfg where
  channelRoot : String
  indices : List String
  strikeRange : ℕ
  batchSize : ℕ
  getAtmStrike : String → ℚ → ℚ
  getStrikeDiff : String → ℚ

/-- Outcome of the `fetch` + JSON-parse in `getOptionToken`:
a 2xx response whose body carried a (possibly missing/falsy) `token`
field, a non-2xx response, or a network/parse error. -/
inductive FetchOutcome where
  | ok (token : Option String)
  | httpError
  | netFail
deriving Repr, DecidableEq

/-- The external token-resolution endpoint, one call per
`(index, strike, side)` leg. -/
def Fetcher : Type := String → ℚ → String → FetchOutcome

/-- The `getOptionToken` function (part_001 lines 240–264): a non-ok response throws
and is caught, a network/parse failure is caught, and `data.token ||
null` maps a missing token to `null`; every failure path returns no
token and only a 2xx response with a token yields one. -/
def getOptionToken (fetcher : Fetcher) (indexName : String)
    (strikePrice : ℚ) (optionType : String) : Option String :=
  match fetcher indexName strikePrice optionType with
  | FetchOutcome.ok (some t) => some t
  | FetchOutcome.ok none => none
  | FetchOutcome.httpError => none
  | FetchOutcome.netFail => none

/-- Accumulator of `subscribeToAtmOptions`: the active-subscription set,
the `client.subscribe` calls issued, and the token-resolution calls
made, in order. -/
structure SubResult where
  active : List String
  subCalls : List String
  resCalls : List (String × ℚ × String)
deriving Repr, DecidableEq

/-- One side (CE or PE) of one strike inside `subscribeToAtmOptions`
(part_001 lines 207–225): if a token was resolved, build the topic and
subscribe unless it is already in `activeSubscriptions`. -/
def subscribeLeg (token : Option String) (r : SubResult) : SubResult :=
  match token with
  | none => r
  | some t =>
    let topic := "index/NSE_FO|" ++ t
    if r.active.contains topic then r
    else { r with subCalls := r.subCalls ++ [topic],
                  active := topic :: r.active }

/-- The body of the per-strike loop of `subscribeToAtmOptions`
(part_001 lines 202–226): fetch the CE token, fetch the PE token, then
subscribe each side that resolved and is not yet active. -/
def expandStrike (fetcher : Fetcher) (indexName : String) (strike : ℚ)
    (r : SubResult) : SubResult :=
  let ceToken := getOptionToken fetcher indexName strike "ce"
  let peToken := getOptionToken fetcher indexName strike "pe"
  let r1 := { r with resCalls :=
    r.resCalls ++ [(indexName, strike, "ce"), (indexName, strike, "pe")] }
  subscribeLeg peToken (subscribeLeg ceToken r1)

/-- The strikes `atmStrike + i * strikeDiff` for
`i = -STRIKE_RANGE, …, STRIKE_RANGE` (part_001 lines 193–199). -/
def strikesAround (cfg : AppCfg) (indexName : String) (atmStrike : ℚ) :
    List ℚ :=
  (List.range (2 * cfg.strikeRange + 1)).map
    (fun i : ℕ =>
      atmStrike + ((i : ℚ) - (cfg.strikeRange : ℚ)) * cfg.getStrikeDiff indexName)

/-- The `subscribeToAtmOptions` function (part_001 lines 186–227). -/
def subscribeToAtmOptions (cfg : AppCfg) (fetcher : Fetcher)
    (indexName : String) (atmStrike : ℚ) (active : List String) : SubResult :=
  (strikesAround cfg indexName atmStrike).foldl
    (fun r k => expandStrike fetcher indexName k r)
    { active := active, subCalls := [], resCalls := [] }

/-- The `subscribeToAllIndices` function (part_001 lines 153–160): for every
configured index, issue `client.subscribe("index/" ++ name)`
unconditionally and add the topic to the active set.  Returns the new
active set and the subscribe calls issued. -/
def subscribeToAllIndices (indices : List String) (active : List String) :
    List String × List String :=
  indices.foldl
    (fun p indexName =>
      let topic := "index/" ++ indexName
      (sadd p.1 topic, p.2 ++ [topic]))
    (active, [])

/-- The `initializeFirstMessageTracking` function (part_001 lines 167–171): set the
first-message flag to `true` for every configured index. -/
def initializeFirstMessageTracking (indices : List String)
    (firstMsg : List (String × Bool)) : List (String × Bool) :=
  indices.foldl (fun m indexName => aset m indexName true) firstMsg

/-- The mutable state the decoder/router and subscription manager share:
`indexLtpMap` and `atmStrikeMap` (part_001 lines 9–10), the
subscription manager's `isFirstIndexMessage` map and
`activeSubscriptions` set, and the storage sink's state. -/
structure ProcState where
  indexLtpMap : List (String × ℚ)
  atmStrikeMap : List (String × ℚ)
  firstMsg : List (String × Bool)
  activeSubscriptions : List String
  db : DbState

/-- Ghost trace of one `processMessage` run: the `db.saveToDatabase`
forwards (topic, price), the `subscribeToAtmOptions` invocations
(index, atm strike), the transport subscribe calls, the
token-resolution calls, and the number of reported decode failures. -/
structure ProcTrace where
  forwarded : List (String × ℚ)
  expansions : List (String × ℚ)
  subCalls : List String
  resCalls : List (String × ℚ × String)
  decodeFailures : ℕ
deriving Repr, DecidableEq

def ProcTrace.empty : ProcTrace :=
  { forwarded := [], expansions := [], subCalls := [], resCalls := [],
    decodeFailures := 0 }

def traceAppend (a b : ProcTrace) : ProcTrace :=
  { forwarded := a.forwarded ++ b.forwarded,
    expansions := a.expansions ++ b.expansions,
    subCalls := a.subCalls ++ b.subCalls,
    resCalls := a.resCalls ++ b.resCalls,
    decodeFailures := a.decodeFailures + b.decodeFailures }

/-- An inbound payload, by which of the three decoders accepts it
(part_001 lines 25–61, tried in strict priority order):

* `single o` — `MarketData.decode` succeeds; `o` is the `ltp` field
  when it is numeric (`typeof decoded.ltp === "number"`), else `none`;
* `batch data` — `MarketData.decode` throws and
  `MarketDataBatch.decode` succeeds; each element's `ltp` is numeric
  iff it is `some`;
* `jsonMsg o` — both protobuf decoders throw, `JSON.parse` succeeds;
* `invalid` — all three decoders fail. -/
inductive Payload where
  | single (ltp : Option ℚ)
  | batch (data : List (Option ℚ))
  | jsonMsg (ltp : Option ℚ)
  | invalid
deriving Repr, DecidableEq

/-- The decoding block of `processMessage` (part_001 lines 25–61):
the extracted `ltpValues` and the number of reported decode failures. -/
def decodeLtps : Payload → List ℚ × ℕ
  | Payload.single (some l) => ([l], 0)
  | Payload.single none => ([], 0)
  | Payload.batch data => (data.filterMap id, 0)
  | Payload.jsonMsg (some l) => ([l], 0)
  | Payload.jsonMsg none => ([], 0)
  | Payload.invalid => ([], 1)

/-- The body of the per-LTP loop of `processMessage` (part_001 lines
64–117) for one extracted price `ltp` on channel `topic`:

* on an index topic, read the previous LTP, record the new one, compute
  the ATM strike, and — when the first-message flag is truthy, or the
  previous LTP exists and the ATM strike moved by at least one strike
  difference from the recorded one (`atmStrikeMap.get(name) || 0`) —
  record the new ATM strike, run `subscribeToAtmOptions`, and clear the
  first-message flag if it was set;
* then forward the observation to `db.saveToDatabase` with the index
  name as metadata on index topics and no metadata otherwise. -/
def processOneLtp (cfg : AppCfg) (fetcher : Fetcher) (topic : String)
    (ltp : ℚ) (s : ProcState) : ProcState × ProcTrace :=
  let onIndexChannel := strBegins (cfg.channelRoot ++ "/") topic
  let st1 :=
    if onIndexChannel then
      let indexName := indexNameOf topic
      let prevLtp := alookup s.indexLtpMap indexName
      let s := { s with indexLtpMap := aset s.indexLtpMap indexName ltp }
      let atmStrike := cfg.getAtmStrike indexName ltp
      let isFirstMessage := alookup s.firstMsg indexName
      if isFirstMessage = some true ∨
          (prevLtp ≠ none ∧
           cfg.getStrikeDiff indexName ≤
             |atmStrike - (alookup s.atmStrikeMap indexName).getD 0|) then
        let s := { s with atmStrikeMap := aset s.atmStrikeMap indexName atmStrike }
        let r := subscribeToAtmOptions cfg fetcher indexName atmStrike
          s.activeSubscriptions
        let s := { s with activeSubscriptions := r.active }
        let s :=
          if isFirstMessage = some true then
            { s with firstMsg := aset s.firstMsg indexName false }
          else s
        (s, { ProcTrace.empty with
              expansions := [(indexName, atmStrike)],
              subCalls := r.subCalls,
              resCalls := r.resCalls })
      else (s, ProcTrace.empty)
    else (s, ProcTrace.empty)
  let s1 := st1.1
  let t1 := st1.2
  let metaIndexName := if onIndexChannel then some (indexNameOf topic) else none
  let db' := (saveToDatabase cfg.batchSize false topic ltp metaIndexName
    none none s1.db).1
  ({ s1 with db := db' },
   { t1 with forwarded := t1.forwarded ++ [(topic, ltp)] })

/-- The `for (const ltp of ltpValues)` loop of `processMessage`. -/
def processLtps (cfg : AppCfg) (fetcher : Fetcher) (topic : String) :
    List ℚ → ProcState → ProcState × ProcTrace
  | [], s => (s, ProcTrace.empty)
  | l :: ls, s =>
    let r1 := processOneLtp cfg fetcher topic l s
    let r2 := processLtps cfg fetcher topic ls r1.1
    (r2.1, traceAppend r1.2 r2.2)

/-- The `processMessage` function (part_001 lines 12–121): decode the payload, then
process each extracted LTP value in order. -/
def processMessage (cfg : AppCfg) (fetcher : Fetcher) (topic : String)
    (payload : Payload) (s : ProcState) : ProcState × ProcTrace :=
  let d := decodeLtps payload
  let r := processLtps cfg fetcher topic d.1 s
  (r.1, { r.2 with decodeFailures := r.2.decodeFailures + d.2 })

/-! ## Interleaved `getTopicId` (for the concurrent first-sight race)

`flushBatch` resolves topic ids with `Promise.all`, and two overlapping
flushes can run `getTopicId` for the same identifier concurrently.  The
JavaScript runtime interleaves the tasks only at `await` points, and
`getTopicId` awaits twice: at the `SELECT` and at the `INSERT`.  Each
task is therefore a three-step machine over the shared cache and store:

* `start`: the synchronous cache check; on a hit the task finishes,
  on a miss it issues the `SELECT`;
* `selPending`: the `SELECT` executes against the store as it stands
  now, and the continuation up to the next await runs: on a row the
  task caches the id and finishes, otherwise it issues the `INSERT`;
* `insPending`: the `INSERT` executes (the store appends a row and
  assigns the next id), and the continuation caches the id and
  finishes. -/

inductive TaskPc where
  | start
  | selPending
  | insPending
  | finished (id : ℕ)
deriving Repr, DecidableEq

/-- The shared state two concurrent `getTopicId` calls race on. -/
structure Shared where
  topicCache : List (String × ℕ)
  topics : List TopicRow
  nextTopicId : ℕ
deriving Repr, DecidableEq

/-- One atomic step of a `getTopicId` task for identifier `topicName`
(metadata omitted: the race does not depend on it). -/
def taskStep (topicName : String) (pc : TaskPc) (sh : Shared) :
    TaskPc × Shared :=
  match pc with
  | TaskPc.start =>
    match alookup sh.topicCache topicName with
    | some i => (TaskPc.finished i, sh)
    | none => (TaskPc.selPending, sh)
  | TaskPc.selPending =>
    match sh.topics.find? (fun r => r.topic_name == topicName) with
    | some row =>
      (TaskPc.finished row.topic_id,
       { sh with topicCache := aset sh.topicCache topicName row.topic_id })
    | none => (TaskPc.insPending, sh)
  | TaskPc.insPending =>
    let newId := sh.nextTopicId
    (TaskPc.finished newId,
     { sh with
       topics := sh.topics ++ [⟨newId, topicName, none, none, none⟩],
       nextTopicId := newId + 1,
       topicCache := aset sh.topicCache topicName newId })
  | TaskPc.finished i => (TaskPc.finished i, sh)

/-- Two `getTopicId` tasks for the same identifier plus shared state. -/
structure TwoTasks where
  sh : Shared
  pc1 : TaskPc
  pc2 : TaskPc
deriving Repr, DecidableEq

/-- Run one scheduler choice: `false` steps task 1, `true` steps task 2. -/
def sysStep (topicName : String) (choice : Bool) (sys : TwoTasks) : TwoTasks :=
  if choice then
    let r := taskStep topicName sys.pc2 sys.sh
    { sys with pc2 := r.1, sh := r.2 }
  else
    let r := taskStep topicName sys.pc1 sys.sh
    { sys with pc1 := r.1, sh := r.2 }

/-- Run a schedule (a list of scheduler choices) from a system state. -/
def runSched (topicName : String) : List Bool → TwoTasks → TwoTasks
  | [], sys => sys
  | c :: cs, sys => runSched topicName cs (sysStep topicName c sys)

/-- Both tasks at their entry point over an empty cache and store. -/
def twoFreshTasks : TwoTasks :=
  { sh := { topicCache := [], topics := [], nextTopicId := 0 },
    pc1 := TaskPc.start, pc2 := TaskPc.start }

/-- How many `topics` rows carry a given identifier. -/
def rowsFor (topicName : String) (rows : List TopicRow) : ℕ :=
  (rows.filter (fun r => r.topic_name == topicName)).length

/-- Invariant of the `subscribeToAtmOptions` accumulator relative to the
initial active set `base`: the running active set is exactly `base` plus
the subscribe calls issued so far, and no issued call re-subscribed a
member of `base`. -/
def SubInv (base : List String) (r : SubResult) : Prop :=
  (∀ x, x ∈ r.active ↔ (x ∈ r.subCalls ∨ x ∈ base)) ∧
  (∀ x, x ∈ r.subCalls → x ∉ base)

/-- The token-resolution calls of one chain expansion: both sides of
every strike, in loop order. -/
def legsList (indexName : String) (ks : List ℚ) :
    List (String × ℚ × String) :=
  ks.flatMap (fun k => [(indexName, k, "ce"), (indexName, k, "pe")])

/-- A database state whose pending buffer holds one observation. -/
def dbOneItem : DbState :=
  { DbState.empty with
    dataBatch := [⟨"index/NIFTY", 100, some "NIFTY", none, none⟩] }

/-- One queued `getTopicId` invocation (topic name plus metadata). -/
structure CallArgs where
  topicName : String
  indexName : Option String
  ty : Option String
  strike : Option ℚ
deriving Repr, DecidableEq

/-- Run a sequence of `getTopicId` calls sequentially. -/
def runCalls : List CallArgs → DbState → DbState
  | [], s => s
  | c :: cs, s =>
    runCalls cs (getTopicId s c.topicName c.indexName c.ty c.strike).state

/-- Topic-row inserts performed for identifier `n` while running a
sequence of `getTopicId` calls (a call only ever inserts a row named by
its own topic name). -/
def runInsertsFor (n : String) : List CallArgs → DbState → ℕ
  | [], _ => 0
  | c :: cs, s =>
    let r := getTopicId s c.topicName c.indexName c.ty c.strike
    (if c.topicName = n then r.inserts else 0) + runInsertsFor n cs r.state

/-- Invariant of a reachable per-index state for a configured index:
after `initializeFirstMessageTracking` the first-message flag is `true`;
once it has been cleared (which only happens inside a taken expansion
branch, after the last price and the reference strike were recorded),
the index has a recorded last price and a recorded reference strike. -/
def IndexInv (s : ProcState) (idx : String) : Prop :=
  alookup s.firstMsg idx = some true ∨
  (alookup s.firstMsg idx = some false ∧
   alookup s.indexLtpMap idx ≠ none ∧
   (alookup s.atmStrikeMap idx).isSome = true)

/-- Concrete configuration for exercising the expansion trigger:
increment 50 for NIFTY, window ±1, and a tracker that computes ATM
strike 20050 for the observed price. -/
def expCfg : AppCfg :=
  { channelRoot := "index", indices := ["NIFTY"], strikeRange := 1,
    batchSize := 100, getAtmStrike := fun _ _ => 20050,
    getStrikeDiff := fun _ => 50 }

/-- A fetcher that never resolves a token. -/
def expFetcher : Fetcher := fun _ _ _ => FetchOutcome.netFail

/-- A per-index state with the first message already seen, last price
20010 and recorded reference strike 20000. -/
def expState : ProcState :=
  { indexLtpMap := [("NIFTY", 20010)], atmStrikeMap := [("NIFTY", 20000)],
    firstMsg := [("NIFTY", false)], activeSubscriptions := [],
    db := DbState.empty }

/-! ## Theorems -/

theorem connAfter_count (n : ℕ) : (connAfter n).reconnectCount = n := by
  induction n with
  | zero => rfl
  | succ k ih => simp [connAfter, onReconnectEvent, ih]

theorem computedDelay_eq (n : ℕ) (h : 1 ≤ n) :
    computedDelay n = min (100 * (3 / 2 : ℚ) ^ n) 5000 := by
  obtain ⟨k, rfl⟩ : ∃ k, n = k + 1 := ⟨n - 1, by omega⟩
  simp [computedDelay, connAfter, onReconnectEvent, connAfter_count,
    MAX_RECONNECT_DELAY]

theorem pow_three_half_ten_le {n : ℕ} (h : 10 ≤ n) :
    (5000 : ℚ) ≤ 100 * (3 / 2 : ℚ) ^ n := by
  have h1 : ((3 : ℚ) / 2) ^ 10 ≤ (3 / 2 : ℚ) ^ n :=
    pow_le_pow_right₀ (by norm_num) h
  have h2 : (5000 : ℚ) ≤ 100 * (3 / 2 : ℚ) ^ 10 := by norm_num
  nlinarith

/-- C5 counterexample: the claim states both that the delay computed for
attempt `n` (attempts numbered from 1) is `min(100 * 1.5 ^ n, 5000)` and
that the resulting delay sequence starts `100, 150, …`; but the delay
the handler computes on the first reconnect attempt is 150, not 100. -/
theorem reconnect_delay_attempt1_not_100 :
    computedDelay 1 = 150 ∧ computedDelay 1 ≠ 100 := by
  constructor
  · simp [computedDelay, connAfter, onReconnectEvent, initialConnState,
      MAX_RECONNECT_DELAY]
    norm_num
  · simp [computedDelay, connAfter, onReconnectEvent, initialConnState,
      MAX_RECONNECT_DELAY]
    norm_num

/-- C5 (amended): attempts numbered from 1; the delay computed by the
`reconnect` handler on attempt `n` is `min(100 * 1.5 ^ n, 5000)`, so the
computed delays run 150, 225, 337.5, 506.25, …, capped at 5000 from
attempt 10 (the first attempt whose uncapped value exceeds the cap);
the 100 of the spec's sequence is the initial `reconnectPeriod` set in
`createClient`, which governs the first attempt before any computed
delay exists. -/
theorem reconnect_delay_formula :
    (∀ n : ℕ, 1 ≤ n → computedDelay n = min (100 * (3 / 2 : ℚ) ^ n) 5000) ∧
    initialConnState.reconnectPeriod = 100 ∧
    computedDelay 1 = 150 ∧ computedDelay 2 = 225 ∧
    computedDelay 3 = 675 / 2 ∧ computedDelay 4 = 2025 / 4 ∧
    (∀ n : ℕ, 1 ≤ n → n ≤ 9 → computedDelay n = 100 * (3 / 2 : ℚ) ^ n) ∧
    (∀ n : ℕ, 10 ≤ n → computedDelay n = 5000) := by
  have uncapped : ∀ n : ℕ, 1 ≤ n → n ≤ 9 →
      computedDelay n = 100 * (3 / 2 : ℚ) ^ n := by
    intro n h1 h9
    rw [computedDelay_eq n h1, min_eq_left]
    have hp : (3 / 2 : ℚ) ^ n ≤ (3 / 2 : ℚ) ^ 9 :=
      pow_le_pow_right₀ (by norm_num) h9
    nlinarith
  refine ⟨computedDelay_eq, rfl, ?_, ?_, ?_, ?_, uncapped, ?_⟩
  · rw [uncapped 1 (by norm_num) (by norm_num)]; norm_num
  · rw [uncapped 2 (by norm_num) (by norm_num)]; norm_num
  · rw [uncapped 3 (by norm_num) (by norm_num)]; norm_num
  · rw [uncapped 4 (by norm_num) (by norm_num)]; norm_num
  · intro n h10
    rw [computedDelay_eq n (by omega),
      min_eq_right (pow_three_half_ten_le h10)]

theorem reconnect_delay_formula_witness :
    computedDelay 12 = 5000 :=
  reconnect_delay_formula.2.2.2.2.2.2.2 12 (by norm_num)

/-- C9: the code violates the invariant.  Two concurrent `getTopicId`
tasks for the same previously-unseen identifier, interleaved so that
both run their cache check and their `SELECT` (both see no row) before
either `INSERT` runs — the schedule alternates the tasks step by step —
end with the `topics` table holding TWO records for that identifier
(ids 0 and 1); `getTopicId` is a plain read-then-write with no
uniqueness constraint or per-key lock. -/
theorem concurrent_first_sight_two_records :
    rowsFor "index/NSE_FO|42"
      (runSched "index/NSE_FO|42" [false, true, false, true, false, true]
        twoFreshTasks).sh.topics = 2 ∧
    (runSched "index/NSE_FO|42" [false, true, false, true, false, true]
        twoFreshTasks).pc1 = TaskPc.finished 0 ∧
    (runSched "index/NSE_FO|42" [false, true, false, true, false, true]
        twoFreshTasks).pc2 = TaskPc.finished 1 := by
  decide

theorem subscribeLeg_inv {base : List String} {r : SubResult}
    (tok : Option String) (h : SubInv base r) :
    SubInv base (subscribeLeg tok r) := by
  obtain ⟨hiff, hdisj⟩ := h
  match tok with
  | none => exact ⟨hiff, hdisj⟩
  | some t =>
    simp only [subscribeLeg]
    by_cases hc : r.active.contains ("index/NSE_FO|" ++ t)
    · rw [if_pos hc]; exact ⟨hiff, hdisj⟩
    · rw [if_neg hc]
      have hnot : "index/NSE_FO|" ++ t ∉ r.active := by
        intro hmem
        exact hc (List.elem_eq_true_of_mem hmem)
      constructor
      · intro x
        simp only [List.mem_cons, List.mem_append, List.mem_singleton]
        rw [hiff x]
        tauto
      · intro x hx
        rcases List.mem_append.mp hx with hx | hx
        · exact hdisj x hx
        · rcases List.mem_singleton.mp hx with rfl
          intro hbase
          exact hnot ((hiff _).mpr (Or.inr hbase))

theorem expandStrike_inv {base : List String} {r : SubResult}
    (fetcher : Fetcher) (indexName : String) (k : ℚ) (h : SubInv base r) :
    SubInv base (expandStrike fetcher indexName k r) := by
  apply subscribeLeg_inv
  apply subscribeLeg_inv
  exact ⟨h.1, h.2⟩

theorem foldl_expandStrike_inv {base : List String}
    (fetcher : Fetcher) (indexName : String) (ks : List ℚ) :
    ∀ r : SubResult, SubInv base r →
      SubInv base (ks.foldl (fun r k => expandStrike fetcher indexName k r) r) := by
  induction ks with
  | nil => intro r h; exact h
  | cons k ks ih =>
    intro r h
    exact ih _ (expandStrike_inv fetcher indexName k h)

theorem subscribeToAtmOptions_inv (cfg : AppCfg) (fetcher : Fetcher)
    (indexName : String) (atmStrike : ℚ) (active : List String) :
    SubInv active (subscribeToAtmOptions cfg fetcher indexName atmStrike active) := by
  apply foldl_expandStrike_inv
  constructor
  · intro x; simp
  · intro x hx; simp at hx

theorem subscribeToAllIndices_foldl (indices : List String) :
    ∀ p : List String × List String,
      (indices.foldl
        (fun p indexName =>
          let topic := "index/" ++ indexName
          (sadd p.1 topic, p.2 ++ [topic])) p).2
        = p.2 ++ indices.map (fun i => "index/" ++ i) := by
  induction indices with
  | nil => intro p; simp
  | cons i is ih =>
    intro p
    rw [List.foldl_cons, ih]
    simp

/-- C6 counterexample: with `"index/NIFTY"` already in the Active
Subscription Set, requesting the base channel subscription for `NIFTY`
(`subscribeToAllIndices`) issues the subscribe call again — the base
index path never consults the set before calling
`client.subscribe`. -/
theorem resubscribe_index_channel_reissues :
    "index/NIFTY" ∈ ["index/NIFTY"] ∧
    (subscribeToAllIndices ["NIFTY"] ["index/NIFTY"]).2 = ["index/NIFTY"] ∧
    (subscribeToAllIndices ["NIFTY"] ["index/NIFTY"]).2 ≠ [] := by
  refine ⟨by decide, by decide, by decide⟩

/-- C6 (amended): re-subscribing an already-active identifier is a
no-op only on the option-topic path: `subscribeToAtmOptions` never
issues a subscribe call for a topic already in the Active Subscription
Set, and its final set is exactly the initial set plus the calls it
issued; the base index channel path (`subscribeToAllIndices`) issues
one subscribe call per configured index unconditionally, without
consulting the set. -/
theorem resubscribe_option_topic_noop :
    (∀ (cfg : AppCfg) (fetcher : Fetcher) (indexName : String)
       (atmStrike : ℚ) (active : List String) (t : String),
       t ∈ active →
       t ∉ (subscribeToAtmOptions cfg fetcher indexName atmStrike active).subCalls) ∧
    (∀ (cfg : AppCfg) (fetcher : Fetcher) (indexName : String)
       (atmStrike : ℚ) (active : List String) (x : String),
       x ∈ (subscribeToAtmOptions cfg fetcher indexName atmStrike active).active ↔
         (x ∈ (subscribeToAtmOptions cfg fetcher indexName atmStrike active).subCalls ∨
          x ∈ active)) ∧
    (∀ (indices active : List String),
       (subscribeToAllIndices indices active).2
         = indices.map (fun i => "index/" ++ i)) := by
  refine ⟨?_, ?_, ?_⟩
  · intro cfg fetcher indexName atmStrike active t ht hmem
    exact (subscribeToAtmOptions_inv cfg fetcher indexName atmStrike active).2
      t hmem ht
  · intro cfg fetcher indexName atmStrike active x
    exact (subscribeToAtmOptions_inv cfg fetcher indexName atmStrike active).1 x
  · intro indices active
    rw [subscribeToAllIndices, subscribeToAllIndices_foldl]
    simp

/-- Witness for the amended C6 at a concrete input: with the option
topic `index/NSE_FO|7` already active and a fetcher that always
resolves token `7`, no subscribe call for it is issued. -/
theorem resubscribe_option_topic_noop_witness :
    "index/NSE_FO|7" ∉
      (subscribeToAtmOptions
        ⟨"index", ["NIFTY"], 0, 100, fun _ _ => 0, fun _ => 50⟩
        (fun _ _ _ => FetchOutcome.ok (some "7"))
        "NIFTY" 20000 ["index/NSE_FO|7"]).subCalls :=
  resubscribe_option_topic_noop.1
    ⟨"index", ["NIFTY"], 0, 100, fun _ _ => 0, fun _ => 50⟩
    (fun _ _ _ => FetchOutcome.ok (some "7"))
    "NIFTY" 20000 ["index/NSE_FO|7"] "index/NSE_FO|7" (by decide)

theorem subscribeLeg_resCalls (tok : Option String) (r : SubResult) :
    (subscribeLeg tok r).resCalls = r.resCalls := by
  match tok with
  | none => rfl
  | some t =>
    simp only [subscribeLeg]
    by_cases hc : r.active.contains ("index/NSE_FO|" ++ t)
    · rw [if_pos hc]
    · rw [if_neg hc]

theorem expandStrike_resCalls (fetcher : Fetcher) (indexName : String)
    (k : ℚ) (r : SubResult) :
    (expandStrike fetcher indexName k r).resCalls
      = r.resCalls ++ [(indexName, k, "ce"), (indexName, k, "pe")] := by
  simp only [expandStrike, subscribeLeg_resCalls]

theorem foldl_expandStrike_resCalls (fetcher : Fetcher) (indexName : String)
    (ks : List ℚ) :
    ∀ r : SubResult,
      (ks.foldl (fun r k => expandStrike fetcher indexName k r) r).resCalls
        = r.resCalls ++ legsList indexName ks := by
  induction ks with
  | nil => intro r; simp [legsList]
  | cons k ks ih =>
    intro r
    rw [List.foldl_cons, ih, expandStrike_resCalls]
    simp [legsList]

theorem subscribeLeg_active_mono {x : String} (tok : Option String)
    (r : SubResult) (h : x ∈ r.active) : x ∈ (subscribeLeg tok r).active := by
  match tok with
  | none => exact h
  | some t =>
    simp only [subscribeLeg]
    by_cases hc : r.active.contains ("index/NSE_FO|" ++ t)
    · rw [if_pos hc]; exact h
    · rw [if_neg hc]; exact List.mem_cons_of_mem _ h

theorem expandStrike_active_mono {x : String} (fetcher : Fetcher)
    (indexName : String) (k : ℚ) (r : SubResult) (h : x ∈ r.active) :
    x ∈ (expandStrike fetcher indexName k r).active := by
  exact subscribeLeg_active_mono _ _ (subscribeLeg_active_mono _ _ h)

theorem foldl_expandStrike_active_mono {x : String} (fetcher : Fetcher)
    (indexName : String) (ks : List ℚ) :
    ∀ r : SubResult, x ∈ r.active →
      x ∈ (ks.foldl (fun r k => expandStrike fetcher indexName k r) r).active := by
  induction ks with
  | nil => intro r h; exact h
  | cons k ks ih =>
    intro r h
    exact ih _ (expandStrike_active_mono fetcher indexName k r h)

theorem subscribeLeg_some_active (t : String) (r : SubResult) :
    ("index/NSE_FO|" ++ t) ∈ (subscribeLeg (some t) r).active := by
  simp only [subscribeLeg]
  by_cases hc : r.active.contains ("index/NSE_FO|" ++ t)
  · rw [if_pos hc]
    exact List.mem_of_elem_eq_true hc
  · rw [if_neg hc]
    exact List.mem_cons_self _ _

theorem expandStrike_resolved_active (fetcher : Fetcher) (indexName : String)
    (k : ℚ) (r : SubResult) (side : String) (tok : String)
    (hside : side = "ce" ∨ side = "pe")
    (hres : getOptionToken fetcher indexName k side = some tok) :
    ("index/NSE_FO|" ++ tok) ∈ (expandStrike fetcher indexName k r).active := by
  rcases hside with rfl | rfl
  · simp only [expandStrike]
    rw [hres]
    exact subscribeLeg_active_mono _ _ (subscribeLeg_some_active tok _)
  · simp only [expandStrike]
    rw [hres]
    exact subscribeLeg_some_active tok _

theorem subscribeLeg_subCalls_src (tok : Option String) (r : SubResult)
    (t : String) (h : t ∈ (subscribeLeg tok r).subCalls) :
    t ∈ r.subCalls ∨ ∃ tk, tok = some tk ∧ t = "index/NSE_FO|" ++ tk := by
  match tok with
  | none => exact Or.inl h
  | some tk =>
    simp only [subscribeLeg] at h
    by_cases hc : r.active.contains ("index/NSE_FO|" ++ tk)
    · rw [if_pos hc] at h; exact Or.inl h
    · rw [if_neg hc] at h
      rcases List.mem_append.mp h with h | h
      · exact Or.inl h
      · exact Or.inr ⟨tk, rfl, (List.mem_singleton.mp h)⟩

theorem expandStrike_subCalls_src (fetcher : Fetcher) (indexName : String)
    (k : ℚ) (r : SubResult) (t : String)
    (h : t ∈ (expandStrike fetcher indexName k r).subCalls) :
    t ∈ r.subCalls ∨ ∃ side tok, (side = "ce" ∨ side = "pe") ∧
      getOptionToken fetcher indexName k side = some tok ∧
      t = "index/NSE_FO|" ++ tok := by
  simp only [expandStrike] at h
  rcases subscribeLeg_subCalls_src _ _ _ h with h1 | ⟨tk, htk, rfl⟩
  · rcases subscribeLeg_subCalls_src _ _ _ h1 with h2 | ⟨tk, htk, rfl⟩
    · exact Or.inl h2
    · exact Or.inr ⟨"ce", tk, Or.inl rfl, htk, rfl⟩
  · exact Or.inr ⟨"pe", tk, Or.inr rfl, htk, rfl⟩

theorem foldl_expandStrike_subCalls_src (fetcher : Fetcher)
    (indexName : String) (ks : List ℚ) :
    ∀ (r : SubResult) (t : String),
      t ∈ (ks.foldl (fun r k => expandStrike fetcher indexName k r) r).subCalls →
      t ∈ r.subCalls ∨ ∃ k ∈ ks, ∃ side tok, (side = "ce" ∨ side = "pe") ∧
        getOptionToken fetcher indexName k side = some tok ∧
        t = "index/NSE_FO|" ++ tok := by
  induction ks with
  | nil => intro r t h; exact Or.inl h
  | cons k ks ih =>
    intro r t h
    rw [List.foldl_cons] at h
    rcases ih _ _ h with h1 | ⟨k', hk', rest⟩
    · rcases expandStrike_subCalls_src fetcher indexName k r t h1 with h2 | h2
      · exact Or.inl h2
      · exact Or.inr ⟨k, List.mem_cons_self _ _, h2⟩
    · exact Or.inr ⟨k', List.mem_cons_of_mem _ hk', rest⟩

theorem legsList_count_le (indexName : String) (ks : List ℚ) (k0 : ℚ)
    (side0 : String) :
    (legsList indexName ks).count (indexName, k0, side0) ≤ ks.count k0 := by
  induction ks with
  | nil => simp [legsList]
  | cons k ks ih =>
    have e1 : legsList indexName (k :: ks)
        = (indexName, k, "ce") :: (indexName, k, "pe") :: legsList indexName ks := by
      simp [legsList]
    rw [e1]
    simp only [List.count_cons]
    have ice : (if (((indexName, k, "ce") : String × ℚ × String)
        == (indexName, k0, side0)) = true then 1 else 0) ≤
        if (k == k0) = true then 1 else 0 := by
      by_cases h : (((indexName, k, "ce") : String × ℚ × String)
          == (indexName, k0, side0)) = true
      · have h' := eq_of_beq h
        have hkk : (k == k0) = true := by
          injection h' with _ h2
          injection h2 with h3 _
          exact beq_iff_eq.mpr h3
        rw [if_pos h, if_pos hkk]
      · simp [h]
    have ipe : (if (((indexName, k, "pe") : String × ℚ × String)
        == (indexName, k0, side0)) = true then 1 else 0) ≤
        if (k == k0) = true then 1 else 0 := by
      by_cases h : (((indexName, k, "pe") : String × ℚ × String)
          == (indexName, k0, side0)) = true
      · have h' := eq_of_beq h
        have hkk : (k == k0) = true := by
          injection h' with _ h2
          injection h2 with h3 _
          exact beq_iff_eq.mpr h3
        rw [if_pos h, if_pos hkk]
      · simp [h]
    have inotboth : ¬ ((((indexName, k, "ce") : String × ℚ × String)
        == (indexName, k0, side0)) = true ∧
        (((indexName, k, "pe") : String × ℚ × String)
        == (indexName, k0, side0)) = true) := by
      rintro ⟨h1, h2⟩
      have e1' : ((indexName, k, "ce") : String × ℚ × String)
          = (indexName, k0, side0) := eq_of_beq h1
      have e2' : ((indexName, k, "pe") : String × ℚ × String)
          = (indexName, k0, side0) := eq_of_beq h2
      have e3' := e1'.trans e2'.symm
      injection e3' with _ e4
      injection e4 with _ e5
      simp at e5
    by_cases h1 : (((indexName, k, "ce") : String × ℚ × String)
        == (indexName, k0, side0)) = true
    · have h2 : (((indexName, k, "pe") : String × ℚ × String)
          == (indexName, k0, side0)) = false := by
        rcases Bool.eq_false_or_eq_true (((indexName, k, "pe") : String × ℚ × String)
            == (indexName, k0, side0)) with h | h
        · exact absurd ⟨h1, h⟩ inotboth
        · exact h
      rw [h2] at *
      simp only [Bool.false_eq_true, if_false] at *
      omega
    · have h1' : (((indexName, k, "ce") : String × ℚ × String)
          == (indexName, k0, side0)) = false := by
        rcases Bool.eq_false_or_eq_true (((indexName, k, "ce") : String × ℚ × String)
            == (indexName, k0, side0)) with h | h
        · exact absurd h h1
        · exact h
      rw [h1'] at *
      simp only [Bool.false_eq_true, if_false] at *
      omega

theorem strikesAround_nodup (cfg : AppCfg) (indexName : String)
    (atmStrike : ℚ) (h : cfg.getStrikeDiff indexName ≠ 0) :
    (strikesAround cfg indexName atmStrike).Nodup := by
  rw [strikesAround]
  apply List.Nodup.map ?_ (List.nodup_range _)
  intro a b hab
  have h2 : ((a : ℚ) - (cfg.strikeRange : ℚ)) * cfg.getStrikeDiff indexName
      = ((b : ℚ) - (cfg.strikeRange : ℚ)) * cfg.getStrikeDiff indexName := by
    have := add_left_cancel hab
    linarith [this]
  have h3 : ((a : ℚ) - (cfg.strikeRange : ℚ))
      = ((b : ℚ) - (cfg.strikeRange : ℚ)) := mul_right_cancel₀ h h2
  have h4 : (a : ℚ) = (b : ℚ) := by linarith
  exact_mod_cast h4

/-- C8: within one chain expansion, a failed token resolution for one
leg (non-ok HTTP response, network/parse error, or a body without a
token) yields no token for that leg; every leg of the expansion gets
exactly one resolution call regardless of other legs' outcomes (no
inline retry); every subscribe call issued stems from a successfully
resolved leg (so a failed leg is never subscribed); and every
successfully resolved leg's topic is in the active set afterwards
(other legs proceed independently of the failed one). -/
theorem token_failure_leg_isolation (cfg : AppCfg) (fetcher : Fetcher)
    (indexName : String) (atmStrike : ℚ) (active : List String) :
    (∀ (k : ℚ) (side : String),
      fetcher indexName k side = FetchOutcome.httpError ∨
      fetcher indexName k side = FetchOutcome.netFail ∨
      fetcher indexName k side = FetchOutcome.ok none →
      getOptionToken fetcher indexName k side = none) ∧
    (subscribeToAtmOptions cfg fetcher indexName atmStrike active).resCalls
      = legsList indexName (strikesAround cfg indexName atmStrike) ∧
    (cfg.getStrikeDiff indexName ≠ 0 →
      ∀ (k : ℚ) (side : String),
        (subscribeToAtmOptions cfg fetcher indexName atmStrike
          active).resCalls.count (indexName, k, side) ≤ 1) ∧
    (∀ t ∈ (subscribeToAtmOptions cfg fetcher indexName atmStrike
        active).subCalls,
      ∃ k ∈ strikesAround cfg indexName atmStrike, ∃ side tok,
        (side = "ce" ∨ side = "pe") ∧
        getOptionToken fetcher indexName k side = some tok ∧
        t = "index/NSE_FO|" ++ tok) ∧
    (∀ k ∈ strikesAround cfg indexName atmStrike, ∀ (side tok : String),
      (side = "ce" ∨ side = "pe") →
      getOptionToken fetcher indexName k side = some tok →
      ("index/NSE_FO|" ++ tok) ∈
        (subscribeToAtmOptions cfg fetcher indexName atmStrike
          active).active) := by
  refine ⟨?_, ?_, ?_, ?_, ?_⟩
  · intro k side hfail
    rcases hfail with h | h | h <;> simp [getOptionToken, h]
  · rw [subscribeToAtmOptions, foldl_expandStrike_resCalls]
    rfl
  · intro hdiff k side
    rw [subscribeToAtmOptions, foldl_expandStrike_resCalls]
    have h1 := legsList_count_le indexName
      (strikesAround cfg indexName atmStrike) k side
    have h2 := List.nodup_iff_count_le_one.mp
      (strikesAround_nodup cfg indexName atmStrike hdiff) k
    simp only [List.nil_append]
    omega
  · intro t ht
    rw [subscribeToAtmOptions] at ht
    rcases foldl_expandStrike_subCalls_src fetcher indexName _ _ t ht with
      h | ⟨k, hk, side, tok, hside, hres, heq⟩
    · simp at h
    · exact ⟨k, hk, side, tok, hside, hres, heq⟩
  · intro k hk side tok hside hres
    rw [subscribeToAtmOptions]
    obtain ⟨l1, l2, heq⟩ := List.append_of_mem hk
    rw [heq, List.foldl_append, List.foldl_cons]
    apply foldl_expandStrike_active_mono
    exact expandStrike_resolved_active fetcher indexName k _ side tok hside hres

/-- Witness for C8: with strike window ±1 around 20000 (increment 50)
and a fetcher that fails the CE leg at 20000 with an HTTP error but
resolves every PE leg to token `9`, the resolved PE leg at 20000 was
subscribed and is active. -/
theorem token_failure_leg_isolation_witness :
    ("index/NSE_FO|9" : String) ∈
      (subscribeToAtmOptions
        ⟨"index", ["NIFTY"], 1, 100, fun _ p => p, fun _ => 50⟩
        (fun _ k side =>
          if side = "ce" ∧ k = 20000 then FetchOutcome.httpError
          else FetchOutcome.ok (some "9"))
        "NIFTY" 20000 []).active :=
  (token_failure_leg_isolation
    ⟨"index", ["NIFTY"], 1, 100, fun _ p => p, fun _ => 50⟩
    (fun _ k side =>
      if side = "ce" ∧ k = 20000 then FetchOutcome.httpError
      else FetchOutcome.ok (some "9"))
    "NIFTY" 20000 []).2.2.2.2 20000
    (by norm_num [strikesAround, List.range_succ]) "pe" "9" (Or.inr rfl)
    (by simp [getOptionToken])

theorem processOneLtp_forwarded (cfg : AppCfg) (fetcher : Fetcher)
    (topic : String) (ltp : ℚ) (s : ProcState) :
    (processOneLtp cfg fetcher topic ltp s).2.forwarded = [(topic, ltp)] := by
  simp only [processOneLtp]
  split
  · split
    · simp [ProcTrace.empty]
    · simp [ProcTrace.empty]
  · simp [ProcTrace.empty]

theorem processLtps_forwarded_length (cfg : AppCfg) (fetcher : Fetcher)
    (topic : String) (vals : List ℚ) :
    ∀ s : ProcState,
      (processLtps cfg fetcher topic vals s).2.forwarded.length
        = vals.length := by
  induction vals with
  | nil => intro s; rfl
  | cons l ls ih =>
    intro s
    simp only [processLtps, traceAppend, List.length_append]
    rw [processOneLtp_forwarded, ih]
    simp [Nat.add_comm]

theorem length_filterMap_id (data : List (Option ℚ)) :
    (data.filterMap id).length = data.countP (fun o => o.isSome) := by
  induction data with
  | nil => rfl
  | cons o os ih =>
    cases o <;> simp [List.filterMap_cons, List.countP_cons, ih]

/-- C3: a payload decoding as a valid single structured tick record
(numeric `ltp`) forwards exactly one observation to the Sink; a payload
decoding as a batch forwards exactly as many observations as the batch
has elements with a numeric `ltp` field. -/
theorem decode_forward_counts :
    (∀ (cfg : AppCfg) (fetcher : Fetcher) (topic : String) (s : ProcState)
       (l : ℚ),
      (processMessage cfg fetcher topic (Payload.single (some l))
        s).2.forwarded.length = 1) ∧
    (∀ (cfg : AppCfg) (fetcher : Fetcher) (topic : String) (s : ProcState)
       (data : List (Option ℚ)),
      (processMessage cfg fetcher topic (Payload.batch data)
        s).2.forwarded.length = data.countP (fun o => o.isSome)) := by
  constructor
  · intro cfg fetcher topic s l
    simp only [processMessage, decodeLtps]
    rw [processLtps_forwarded_length]
    rfl
  · intro cfg fetcher topic s data
    simp only [processMessage, decodeLtps]
    rw [processLtps_forwarded_length, length_filterMap_id]

/-- C7: a payload matching none of the three decode formats forwards
zero observations, reports exactly one decode failure, leaves the whole
state untouched, and any later message is processed exactly as it would
have been without the dropped one. -/
theorem invalid_payload_dropped :
    ∀ (cfg : AppCfg) (fetcher : Fetcher) (topic : String) (s : ProcState),
      (processMessage cfg fetcher topic Payload.invalid s).2.forwarded = [] ∧
      (processMessage cfg fetcher topic Payload.invalid s).2.decodeFailures
        = 1 ∧
      (processMessage cfg fetcher topic Payload.invalid s).1 = s ∧
      (∀ (topic2 : String) (payload2 : Payload),
        processMessage cfg fetcher topic2 payload2
          (processMessage cfg fetcher topic Payload.invalid s).1
          = processMessage cfg fetcher topic2 payload2 s) := by
  intro cfg fetcher topic s
  exact ⟨rfl, rfl, rfl, fun topic2 payload2 => rfl⟩

theorem getTopicId_ltpData (s : DbState) (n : String) (i ty : Option String)
    (k : Option ℚ) : (getTopicId s n i ty k).state.ltpData = s.ltpData := by
  unfold getTopicId
  split
  · rfl
  · split
    · rfl
    · rfl

theorem getTopicId_dataBatch (s : DbState) (n : String) (i ty : Option String)
    (k : Option ℚ) : (getTopicId s n i ty k).state.dataBatch = s.dataBatch := by
  unfold getTopicId
  split
  · rfl
  · split
    · rfl
    · rfl

theorem getTopicId_batchTimer (s : DbState) (n : String) (i ty : Option String)
    (k : Option ℚ) : (getTopicId s n i ty k).state.batchTimer = s.batchTimer := by
  unfold getTopicId
  split
  · rfl
  · split
    · rfl
    · rfl

theorem resolveTopicIds_ltpData (items : List BatchItem) :
    ∀ s : DbState, (resolveTopicIds items s).2.ltpData = s.ltpData := by
  induction items with
  | nil => intro s; rfl
  | cons it rest ih =>
    intro s
    simp only [resolveTopicIds]
    rw [ih, getTopicId_ltpData]

theorem resolveTopicIds_dataBatch (items : List BatchItem) :
    ∀ s : DbState, (resolveTopicIds items s).2.dataBatch = s.dataBatch := by
  induction items with
  | nil => intro s; rfl
  | cons it rest ih =>
    intro s
    simp only [resolveTopicIds]
    rw [ih, getTopicId_dataBatch]

theorem saveToDatabase_small (batchSize : ℕ) (wFail : Bool) (topic : String)
    (ltp : ℚ) (iN ty : Option String) (k : Option ℚ) (s : DbState)
    (h : s.dataBatch.length + 1 < batchSize) :
    (saveToDatabase batchSize wFail topic ltp iN ty k s).1
      = { s with
          dataBatch := s.dataBatch ++ [⟨topic, ltp, iN, ty, k⟩],
          batchTimer := true } ∧
    (saveToDatabase batchSize wFail topic ltp iN ty k s).2 = [] := by
  obtain ⟨db, bt, tc, tp, ld, ni⟩ := s
  simp only at h
  simp only [saveToDatabase]
  rw [if_neg]
  · cases bt
    · simp
    · simp
  · cases bt
    · simp
      omega
    · simp
      omega

/-- C2: when the durable bulk write of a flush fails, the transaction is
rolled back, so the observations table is exactly what it was before
(no observation of the batch becomes durable); the failure is reported
upward; the swapped-out batch is not re-queued (the pending buffer is
empty afterwards); and a subsequent `saveToDatabase` still accepts and
enqueues a new tick into the fresh buffer. -/
theorem flush_failure_all_or_nothing (batchSize : ℕ) (s : DbState)
    (it : BatchItem) (hne : s.dataBatch ≠ []) (hbs : 1 < batchSize) :
    (flushBatch true s).state.ltpData = s.ltpData ∧
    (flushBatch true s).ok = false ∧
    (flushBatch true s).state.dataBatch = [] ∧
    (saveItem batchSize false it (flushBatch true s).state).1.dataBatch
      = [it] := by
  have hflush : flushBatch true s
      = { state := (resolveTopicIds s.dataBatch
            { s with batchTimer := false, dataBatch := [] }).2,
          snapshot := s.dataBatch, ok := false } := by
    unfold flushBatch
    rw [if_neg hne, if_pos rfl]
  refine ⟨?_, ?_, ?_, ?_⟩
  · rw [hflush]
    simp only
    rw [resolveTopicIds_ltpData]
  · rw [hflush]
  · rw [hflush]
    simp only
    rw [resolveTopicIds_dataBatch]
  · rw [hflush]
    simp only [saveItem]
    rw [(saveToDatabase_small batchSize false it.topic it.ltp it.indexName
      it.type it.strike _ (by rw [resolveTopicIds_dataBatch]; simp; omega)).1]
    simp only
    rw [resolveTopicIds_dataBatch]
    simp

theorem flush_failure_all_or_nothing_witness :
    (flushBatch true dbOneItem).state.ltpData = dbOneItem.ltpData ∧
    (flushBatch true dbOneItem).ok = false ∧
    (flushBatch true dbOneItem).state.dataBatch = [] ∧
    (saveItem 2 false ⟨"index/BANKNIFTY", 7, none, none, none⟩
      (flushBatch true dbOneItem).state).1.dataBatch
      = [⟨"index/BANKNIFTY", 7, none, none, none⟩] :=
  flush_failure_all_or_nothing 2 dbOneItem
    ⟨"index/BANKNIFTY", 7, none, none, none⟩
    (by simp [dbOneItem, DbState.empty]) (by norm_num)

theorem saveToDatabase_full (batchSize : ℕ) (wFail : Bool) (topic : String)
    (ltp : ℚ) (iN ty : Option String) (k : Option ℚ) (s : DbState)
    (h : batchSize ≤ s.dataBatch.length + 1) :
    saveToDatabase batchSize wFail topic ltp iN ty k s
      = ((flushBatch wFail
          { s with
            dataBatch := s.dataBatch ++ [⟨topic, ltp, iN, ty, k⟩],
            batchTimer := true }).state,
         [(flushBatch wFail
          { s with
            dataBatch := s.dataBatch ++ [⟨topic, ltp, iN, ty, k⟩],
            batchTimer := true }).snapshot]) := by
  obtain ⟨db, bt, tc, tp, ld, ni⟩ := s
  simp only at h
  simp only [saveToDatabase]
  rw [if_pos]
  · cases bt
    · simp
    · simp
  · cases bt
    · simp
      omega
    · simp
      omega

theorem flushBatch_success (s : DbState) (h : s.dataBatch ≠ []) :
    (flushBatch false s).snapshot = s.dataBatch ∧
    (flushBatch false s).state.dataBatch = [] := by
  unfold flushBatch
  rw [if_neg h]
  constructor
  · simp
  · simp [resolveTopicIds_dataBatch]

theorem runSaves_fill (batchSize : ℕ) :
    ∀ (items : List BatchItem) (s : DbState),
      items ≠ [] →
      s.dataBatch.length + items.length = batchSize →
      (runSaves batchSize false items s).2 = [s.dataBatch ++ items] ∧
      (runSaves batchSize false items s).1.dataBatch = [] := by
  intro items
  induction items with
  | nil => intro s h _; exact absurd rfl h
  | cons it rest ih =>
    intro s _ hlen
    by_cases hr : rest = []
    · subst hr
      simp only [List.length_cons, List.length_nil] at hlen
      simp only [runSaves, saveItem]
      rw [saveToDatabase_full batchSize false it.topic it.ltp it.indexName
        it.type it.strike s (by omega)]
      have hs2 : ({ s with
          dataBatch := s.dataBatch ++
            [⟨it.topic, it.ltp, it.indexName, it.type, it.strike⟩],
          batchTimer := true } : DbState).dataBatch ≠ [] := by
        simp
      have hf := flushBatch_success _ hs2
      constructor
      · simp only [List.append_nil]
        rw [hf.1]
      · simp only
        rw [hf.2]
    · have hrlen : 1 ≤ rest.length := by
        rcases rest with _ | ⟨a, b⟩
        · exact absurd rfl hr
        · simp
      simp only [List.length_cons] at hlen
      simp only [runSaves, saveItem]
      rw [(saveToDatabase_small batchSize false it.topic it.ltp it.indexName
        it.type it.strike s (by omega)).1,
        (saveToDatabase_small batchSize false it.topic it.ltp it.indexName
        it.type it.strike s (by omega)).2]
      have hres := ih { s with
          dataBatch := s.dataBatch ++
            [⟨it.topic, it.ltp, it.indexName, it.type, it.strike⟩],
          batchTimer := true } hr (by simp; omega)
      constructor
      · rw [List.nil_append, hres.1]
        simp
      · rw [hres.2]

/-- C4: enqueuing exactly `batchSize` observations through
`saveToDatabase` starting from an empty pending buffer (and with no
timer fire) invokes `flushBatch` exactly once, that flush's snapshot is
exactly those observations in order, and the pending buffer is left
empty (it was swapped out before the write, so later enqueues land in
the next batch). -/
theorem size_threshold_single_flush (batchSize : ℕ) (items : List BatchItem)
    (s : DbState) (hempty : s.dataBatch = []) (hlen : items.length = batchSize)
    (hpos : 0 < batchSize) :
    (runSaves batchSize false items s).2 = [items] ∧
    (runSaves batchSize false items s).1.dataBatch = [] := by
  have hne : items ≠ [] := by
    intro h
    rw [h] at hlen
    simp at hlen
    omega
  have h2 := runSaves_fill batchSize items s hne (by rw [hempty]; simp [hlen])
  rw [hempty] at h2
  simpa using h2

theorem size_threshold_single_flush_witness :
    (runSaves 2 false
      [⟨"index/NIFTY", 1, none, none, none⟩,
       ⟨"index/NIFTY", 2, none, none, none⟩] DbState.empty).2
      = [[⟨"index/NIFTY", 1, none, none, none⟩,
          ⟨"index/NIFTY", 2, none, none, none⟩]] ∧
    (runSaves 2 false
      [⟨"index/NIFTY", 1, none, none, none⟩,
       ⟨"index/NIFTY", 2, none, none, none⟩] DbState.empty).1.dataBatch
      = [] :=
  size_threshold_single_flush 2
    [⟨"index/NIFTY", 1, none, none, none⟩,
     ⟨"index/NIFTY", 2, none, none, none⟩] DbState.empty rfl rfl
    (by norm_num)

theorem getTopicId_caches (s : DbState) (n : String) (i ty : Option String)
    (k : Option ℚ) :
    alookup (getTopicId s n i ty k).state.topicCache n
      = some (getTopicId s n i ty k).id := by
  cases h : alookup s.topicCache n with
  | some i0 => simp [getTopicId, h]
  | none =>
    cases hf : s.topics.find? (fun r => r.topic_name == n) with
    | some row => simp [getTopicId, h, hf, alookup_aset_self]
    | none => simp [getTopicId, h, hf, alookup_aset_self]

theorem getTopicId_cache_hit (s : DbState) (n : String) (i : ℕ)
    (i2 ty2 : Option String) (k2 : Option ℚ)
    (h : alookup s.topicCache n = some i) :
    getTopicId s n i2 ty2 k2 = ⟨i, s, 0, 0⟩ := by
  simp [getTopicId, h]

theorem getTopicId_cache_mono (s : DbState) (n n' : String) (i : ℕ)
    (i2 ty2 : Option String) (k2 : Option ℚ)
    (h : alookup s.topicCache n' = some i) :
    alookup (getTopicId s n i2 ty2 k2).state.topicCache n' = some i := by
  by_cases hn : n = n'
  · subst hn
    rw [getTopicId_cache_hit s n i i2 ty2 k2 h]
    exact h
  · cases hc : alookup s.topicCache n with
    | some i0 => simp [getTopicId, hc]; exact h
    | none =>
      cases hf : s.topics.find? (fun r => r.topic_name == n) with
      | some row =>
        simp [getTopicId, hc, hf]
        rw [alookup_aset_ne _ _ _ _ hn]
        exact h
      | none =>
        simp [getTopicId, hc, hf]
        rw [alookup_aset_ne _ _ _ _ hn]
        exact h

theorem getTopicId_inserts_le_one (s : DbState) (n : String)
    (i ty : Option String) (k : Option ℚ) :
    (getTopicId s n i ty k).inserts ≤ 1 := by
  unfold getTopicId
  split
  · simp
  · split
    · simp
    · simp

theorem runCalls_cache_mono (calls : List CallArgs) :
    ∀ (s : DbState) (n : String) (i : ℕ),
      alookup s.topicCache n = some i →
      alookup (runCalls calls s).topicCache n = some i := by
  induction calls with
  | nil => intro s n i h; exact h
  | cons c cs ih =>
    intro s n i h
    exact ih _ n i (getTopicId_cache_mono s c.topicName n i c.indexName
      c.ty c.strike h)

theorem runInsertsFor_cached (n : String) (calls : List CallArgs) :
    ∀ (s : DbState) (i : ℕ), alookup s.topicCache n = some i →
      runInsertsFor n calls s = 0 := by
  induction calls with
  | nil => intro s i _; rfl
  | cons c cs ih =>
    intro s i h
    simp only [runInsertsFor]
    by_cases hcn : c.topicName = n
    · subst hcn
      rw [getTopicId_cache_hit s c.topicName i c.indexName c.ty c.strike h]
      rw [ih s i h]
      simp
    · rw [if_neg hcn, ih _ i
        (getTopicId_cache_mono s c.topicName n i c.indexName c.ty c.strike h)]

/-- C10: in sequential execution, once `getTopicId` has returned an id
for an identifier, every later `getTopicId` call for that identifier —
whatever other calls run in between and whatever metadata it passes —
returns the same id straight from the in-memory cache, with zero store
selects, zero store inserts and an unchanged state; consequently at
most one topic insert is ever performed per identifier in any
sequential run. -/
theorem getTopicId_cached_stable :
    (∀ (s : DbState) (c : CallArgs) (calls : List CallArgs)
       (i2 ty2 : Option String) (k2 : Option ℚ),
      getTopicId
          (runCalls calls
            (getTopicId s c.topicName c.indexName c.ty c.strike).state)
          c.topicName i2 ty2 k2
        = ⟨(getTopicId s c.topicName c.indexName c.ty c.strike).id,
           runCalls calls
             (getTopicId s c.topicName c.indexName c.ty c.strike).state,
           0, 0⟩) ∧
    (∀ (n : String) (calls : List CallArgs) (s : DbState),
      runInsertsFor n calls s ≤ 1) := by
  constructor
  · intro s c calls i2 ty2 k2
    apply getTopicId_cache_hit
    apply runCalls_cache_mono
    exact getTopicId_caches s c.topicName c.indexName c.ty c.strike
  · intro n calls s
    induction calls generalizing s with
    | nil => simp [runInsertsFor]
    | cons c cs ih =>
      simp only [runInsertsFor]
      by_cases hcn : c.topicName = n
      · subst hcn
        rw [runInsertsFor_cached c.topicName cs _ _
          (getTopicId_caches s c.topicName c.indexName c.ty c.strike)]
        have hin := getTopicId_inserts_le_one s c.topicName c.indexName
          c.ty c.strike
        simp
        omega
      · rw [if_neg hcn]
        simp
        exact ih _

theorem initializeFirstMessageTracking_preserve (indices : List String) :
    ∀ (m : List (String × Bool)) (idx : String),
      alookup m idx = some true →
      alookup (initializeFirstMessageTracking indices m) idx = some true := by
  induction indices with
  | nil => intro m idx h; exact h
  | cons i is ih =>
    intro m idx h
    simp only [initializeFirstMessageTracking, List.foldl_cons]
    apply ih
    by_cases hi : i = idx
    · subst hi
      exact alookup_aset_self m i true
    · rw [alookup_aset_ne m i idx true hi]
      exact h

theorem initializeFirstMessageTracking_mem (indices : List String) :
    ∀ (m : List (String × Bool)) (idx : String), idx ∈ indices →
      alookup (initializeFirstMessageTracking indices m) idx = some true := by
  induction indices with
  | nil => intro m idx h; simp at h
  | cons i is ih =>
    intro m idx h
    simp only [initializeFirstMessageTracking, List.foldl_cons]
    rcases List.mem_cons.mp h with rfl | h2
    · exact initializeFirstMessageTracking_preserve is (aset m idx true) idx
        (alookup_aset_self m idx true)
    · exact ih (aset m i true) idx h2

/-- C1: for a price observation on a base index channel whose per-index
state satisfies the reachable-state invariant, the Decoder/Router
invokes chain expansion iff the first-message flag is still set or the
newly computed ATM strike differs from the recorded reference strike by
at least the index's strike increment; the first observation (flag set)
triggers exactly one expansion regardless of the price; and the
invariant is preserved.  `initializeFirstMessageTracking` establishes
the flag for every configured index. -/
theorem expansion_trigger_iff :
    (∀ (cfg : AppCfg) (fetcher : Fetcher) (topic : String) (ltp : ℚ)
       (idx : String) (s : ProcState),
      strBegins (cfg.channelRoot ++ "/") topic = true →
      indexNameOf topic = idx →
      IndexInv s idx →
      ((((processOneLtp cfg fetcher topic ltp s).2.expansions ≠ []) ↔
         (alookup s.firstMsg idx = some true ∨
          cfg.getStrikeDiff idx ≤
            |cfg.getAtmStrike idx ltp -
              (alookup s.atmStrikeMap idx).getD 0|)) ∧
       (alookup s.firstMsg idx = some true →
         (processOneLtp cfg fetcher topic ltp s).2.expansions
           = [(idx, cfg.getAtmStrike idx ltp)]) ∧
       IndexInv (processOneLtp cfg fetcher topic ltp s).1 idx)) ∧
    (∀ (indices : List String) (m : List (String × Bool)) (idx : String),
      idx ∈ indices →
      alookup (initializeFirstMessageTracking indices m) idx = some true) := by
  constructor
  · intro cfg fetcher topic ltp idx s hb hidx hI
    rcases hI with hf | ⟨hf, hltp, hatm⟩
    · refine ⟨?_, ?_, ?_⟩
      · simp [processOneLtp, hb, hidx, hf]
      · intro _
        simp [processOneLtp, hb, hidx, hf]
      · simp only [processOneLtp, hb, hidx, hf]
        simp [IndexInv, alookup_aset_self]
    · refine ⟨?_, ?_, ?_⟩
      · by_cases hd : cfg.getStrikeDiff idx ≤
            |cfg.getAtmStrike idx ltp - (alookup s.atmStrikeMap idx).getD 0|
        · simp [processOneLtp, hb, hidx, hf, hltp, hd, ProcTrace.empty]
        · simp [processOneLtp, hb, hidx, hf, hltp, hd, ProcTrace.empty]
      · intro hcontra
        rw [hf] at hcontra
        simp at hcontra
      · by_cases hd : cfg.getStrikeDiff idx ≤
            |cfg.getAtmStrike idx ltp - (alookup s.atmStrikeMap idx).getD 0|
        · simp only [processOneLtp, hb, hidx, hf, hltp, hd]
          simp [IndexInv, alookup_aset_self, hf, hltp, hd, hatm]
        · simp only [processOneLtp, hb, hidx, hf, hltp, hd]
          simp [IndexInv, alookup_aset_self, hf, hltp, hd, hatm]
  · exact initializeFirstMessageTracking_mem

theorem expansion_trigger_iff_witness :
    ((processOneLtp expCfg expFetcher "index/NIFTY" 20060
        expState).2.expansions ≠ []) ↔
      (alookup expState.firstMsg "NIFTY" = some true ∨
       expCfg.getStrikeDiff "NIFTY" ≤
         |expCfg.getAtmStrike "NIFTY" 20060 -
           (alookup expState.atmStrikeMap "NIFTY").getD 0|) :=
  (expansion_trigger_iff.1 expCfg expFetcher "index/NIFTY" 20060 "NIFTY"
    expState (by decide) (by decide)
    (Or.inr (by decide))).1
